import Mathlib

/-!
# Verification of the arcade-game-picker core against its specification

Shallow embedding of the core logic of `src/app.py` (variant 1.8) and
`src/appv1_4.py` (variant 1.4): Python strings are modelled as `String`
(`.strip()` / `.lower()` as explicit functions on the character list),
Python dicts as ordered association lists with overwrite-insert (insertion
order preserved, as in CPython), the SQLite `game_status` table as an
ordered list of rows, JSON values as an inductive tree, and the network as
an explicit oracle `String → Except String Json` (an `Except.error`
models any raised exception: timeout, connection failure or JSON parse
failure, carrying `str(e)`).
-/

namespace ArcadeGamePicker

/-! ## Python string helpers (`str.strip`, `str.lower`) -/

/-- Characters removed by Python `str.strip()` (whitespace). -/
def stripChars (cs : List Char) : List Char :=
  ((cs.dropWhile Char.isWhitespace).reverse.dropWhile Char.isWhitespace).reverse

/-- Python `s.strip()`. -/
def pyStrip (s : String) : String := ⟨stripChars s.data⟩

/-- Python `s.lower()` (ASCII fragment, which is all the app's data uses). -/
def pyLower (s : String) : String := ⟨s.data.map Char.toLower⟩

/-! ## Data model -/

/-- A normalized game record, the row shape produced by `ensure_columns`
(`src/app.py` lines 108-128): `rom`, `game`, `company`, `genre`,
`platform` are strings and `year` is an integer. -/
structure GameRecord where
  rom : String
  game : String
  year : Int
  company : String
  genre : String
  platform : String
deriving Repr, DecidableEq

/-! ## Deterministic picker (`src/appv1_4.py` lines 84-89)

```python
def deterministic_pick(df_in, seed_int):
    if len(df_in) == 0:
        return None
    idx = seed_int % len(df_in)
    return df_in.iloc[idx]
```
Python `%` on a positive modulus returns a value in `[0, len)`, which is
`Int.emod`. The Game-of-the-Day block of `src/app.py` (lines 759-769)
inlines the same computation: `hits.iloc[seed % len(hits)]` guarded by
`len(hits) > 0`. -/

def deterministic_pick (cs : List GameRecord) (seed : Int) : Option GameRecord :=
  if cs.length = 0 then none
  else cs.get? (seed % (cs.length : Int)).toNat

/-- Sample records used to instantiate witnesses on concrete inputs. -/
def pacRec : GameRecord :=
  { rom := "pacman", game := "Pac-Man", year := 1980
    company := "Namco", genre := "Maze", platform := "Arcade" }

def digdugRec : GameRecord :=
  { rom := "digdug", game := "Dig Dug", year := 1982
    company := "Namco", genre := "Maze", platform := "Arcade" }

/-- C1: for a non-empty candidate list the deterministic picker returns the
record at position `seed mod length`, on the empty list it returns `none`
(never an error), and as a pure function it returns the same record on
repeated calls with the same inputs. -/
theorem deterministic_pick_spec (cs : List GameRecord) (s : Int) :
    deterministic_pick [] s = none ∧
    (cs ≠ [] → ∃ h : (s % (cs.length : Int)).toNat < cs.length,
      deterministic_pick cs s = some (cs.get ⟨(s % (cs.length : Int)).toNat, h⟩)) ∧
    deterministic_pick cs s = deterministic_pick cs s := by
  refine ⟨by simp [deterministic_pick], ?_, rfl⟩
  intro hne
  have hlenpos : (0 : Int) < (cs.length : Int) := by
    have : cs.length ≠ 0 := fun h => hne (List.length_eq_zero.mp h)
    omega
  have hnn : (0 : Int) ≤ s % (cs.length : Int) := Int.emod_nonneg s (by omega)
  have hlt : s % (cs.length : Int) < (cs.length : Int) := Int.emod_lt_of_pos s hlenpos
  have hb : (s % (cs.length : Int)).toNat < cs.length := by omega
  refine ⟨hb, ?_⟩
  have hlen0 : ¬ cs.length = 0 := fun h => hne (List.length_eq_zero.mp h)
  simp only [deterministic_pick, hlen0, if_false]
  exact List.get?_eq_get hb

/-- Witness for C1 at the concrete input `[pacRec, digdugRec]`, seed 5:
the pick is the record at index `5 mod 2 = 1`. -/
theorem deterministic_pick_spec_witness :
    deterministic_pick [pacRec, digdugRec] 5 = some digdugRec := by
  obtain ⟨h, hEq⟩ := (deterministic_pick_spec [pacRec, digdugRec] 5).2.1 (by decide)
  exact hEq

/-! ## Ordered-dict helpers (Python `dict`: insertion order, overwrite) -/

/-- Python `d[k] = v`: overwrite in place if the key exists, else append. -/
def pyDictInsert {α : Type} (d : List (String × α)) (k : String) (v : α) :
    List (String × α) :=
  if d.any (fun p => p.1 = k) then
    d.map (fun p => if p.1 = k then (k, v) else p)
  else d ++ [(k, v)]

/-- Python `d.get(k)`. -/
def pyDictGet {α : Type} (d : List (String × α)) (k : String) : Option α :=
  (d.find? (fun p => p.1 = k)).map (fun p => p.2)

theorem pyDictGet_insert_self {α : Type} (d : List (String × α)) (k : String) (v : α) :
    pyDictGet (pyDictInsert d k v) k = some v := by
  by_cases h : d.any (fun p => p.1 = k)
  · simp only [pyDictInsert, h, if_true]
    induction d with
    | nil => simp at h
    | cons p rest ih =>
      by_cases hp : p.1 = k
      · simp [pyDictGet, List.find?, hp]
      · have hrest : rest.any (fun p => p.1 = k) := by
          simp only [List.any_cons] at h
          rcases Bool.or_eq_true_iff.mp h with h1 | h2
          · exact absurd (of_decide_eq_true h1) hp
          · exact h2
        have := ih hrest
        simpa [pyDictGet, List.find?, hp] using this
  · simp only [pyDictInsert, h, if_false]
    induction d with
    | nil => simp [pyDictGet, List.find?]
    | cons p rest ih =>
      have hp : ¬ p.1 = k := by
        intro hk
        exact h (by simp [List.any_cons, hk])
      have hrest : ¬ rest.any (fun p => p.1 = k) := by
        intro hk
        exact h (by simp [List.any_cons, hk])
      have := ih hrest
      simpa [pyDictGet, List.find?, hp] using this

theorem find?_map_update_ne {α : Type} (rest : List (String × α)) (k k' : String) (v : α)
    (hne : k' ≠ k) :
    (rest.map (fun q => if q.1 = k then (k, v) else q)).find? (fun p => p.1 = k')
      = rest.find? (fun p => p.1 = k') := by
  induction rest with
  | nil => rfl
  | cons q t ih =>
    simp only [List.map_cons]
    by_cases hq : q.1 = k
    · rw [if_pos hq]
      rw [List.find?_cons_of_neg _ (by simp; exact fun hk => hne hk.symm),
          List.find?_cons_of_neg _ (by simp [hq]; exact fun hk => hne hk.symm), ih]
    · rw [if_neg hq]
      by_cases hq' : q.1 = k'
      · rw [List.find?_cons_of_pos _ (by simp [hq']),
            List.find?_cons_of_pos _ (by simp [hq'])]
      · rw [List.find?_cons_of_neg _ (by simp [hq']),
            List.find?_cons_of_neg _ (by simp [hq']), ih]

theorem pyDictGet_insert_ne {α : Type} (d : List (String × α)) (k k' : String) (v : α)
    (hne : k' ≠ k) : pyDictGet (pyDictInsert d k v) k' = pyDictGet d k' := by
  by_cases h : d.any (fun p => p.1 = k)
  · rw [pyDictInsert, if_pos h]
    simp only [pyDictGet]
    rw [find?_map_update_ne d k k' v hne]
  · rw [pyDictInsert, if_neg h]
    simp only [pyDictGet]
    rw [List.find?_append]
    have hk : (List.find? (fun p => decide (p.1 = k')) [(k, v)]) = none := by
      simp only [List.find?]
      have : decide ((k, v).1 = k') = false := by
        simp only [decide_eq_false_iff_not]
        exact fun hk => hne hk.symm
      simp [this]
    cases hfd : d.find? (fun p => decide (p.1 = k')) with
    | none => simp [hfd, hk]
    | some p => simp [hfd]

/-! ## Status Store (`src/app.py` lines 65-96, 531-552)

The SQLite table `game_status (rom TEXT PRIMARY KEY, status TEXT, ...)` is
modelled as an ordered list of `(rom, status)` rows.  `set_status`
normalizes the key (`strip().lower()`), silently returns on an empty key,
deletes the row on `None`, and otherwise upserts.  `get_all_statuses`
builds a dict keyed by `str(rom).strip().lower()`, skipping falsy (empty)
raw roms.  The session-level `update_status` mirrors every successful
write into the in-memory `status_cache`. -/

def set_status (db : List (String × String)) (rom0 : String) (status : Option String) :
    List (String × String) :=
  let rom := pyLower (pyStrip rom0)
  if rom = "" then db
  else
    match status with
    | none => db.filter (fun p => p.1 ≠ rom)
    | some s =>
      if db.any (fun p => p.1 = rom) then
        db.map (fun p => if p.1 = rom then (rom, s) else p)
      else db ++ [(rom, s)]

def get_all_statuses (db : List (String × String)) : List (String × String) :=
  db.foldl
    (fun out p =>
      if p.1 ≠ "" then pyDictInsert out (pyLower (pyStrip p.1)) p.2 else out) []

/-- The store-level read path: look a key up in the bulk-loaded view
(`load_status_cache_once` populates the session cache from
`get_all_statuses`, and `status_for_rom` reads that cache). -/
def get_status (db : List (String × String)) (k : String) : Option String :=
  pyDictGet (get_all_statuses db) k

def update_status (db cache : List (String × String)) (rom0 : String)
    (status : Option String) : List (String × String) × List (String × String) :=
  let rom := pyLower (pyStrip rom0)
  if rom = "" then (db, cache)
  else
    (set_status db rom0 status,
     match status with
     | none => cache.filter (fun p => p.1 ≠ rom)
     | some s => pyDictInsert cache rom s)

/-- C2 counterexample: `set_status` normalizes the key before storing, so
for the identity key "PACMAN" the store maps "pacman", not "PACMAN":
`getAll` does not map the key that was set. -/
theorem set_status_key_normalization_cex :
    get_status (set_status [] "PACMAN" (some "played")) "PACMAN" = none ∧
    get_status (set_status [] "PACMAN" (some "played")) "pacman" = some "played" := by
  constructor <;> rfl

/-- Lookup over the fold in `get_all_statuses` stays `none` for a key
that no row of `db` normalizes to. -/
theorem get_all_statuses_not_mem (db : List (String × String)) (k : String)
    (hdb : ∀ p ∈ db, pyLower (pyStrip p.1) ≠ k) :
    pyDictGet (get_all_statuses db) k = none := by
  suffices hgen : ∀ acc : List (String × String), pyDictGet acc k = none →
      pyDictGet
        (db.foldl
          (fun out p =>
            if p.1 ≠ "" then pyDictInsert out (pyLower (pyStrip p.1)) p.2 else out) acc)
        k = none by
    exact hgen [] rfl
  induction db with
  | nil => intro acc hacc; simpa using hacc
  | cons p rest ih =>
    intro acc hacc
    simp only [List.foldl_cons]
    have hp := hdb p (by simp)
    have hrest : ∀ q ∈ rest, pyLower (pyStrip q.1) ≠ k := by
      intro q hq; exact hdb q (by simp [hq])
    by_cases hp1 : p.1 ≠ ""
    · rw [if_pos hp1]
      exact ih hrest _ (by rw [pyDictGet_insert_ne _ _ _ _ (fun h => hp h.symm)]; exact hacc)
    · rw [if_neg hp1]
      exact ih hrest _ hacc

/-- C2 amended: for a non-empty identity key `k` that is invariant under
trim-and-lowercase, starting from a store none of whose rows carries `k`
(or normalizes to it): after `set k T` the bulk view maps `k` to `T`, and
after a subsequent `set k absent` the row is removed (the store returns to
its prior contents), so `get` returns `absent` and `getAll` no longer
contains `k`. -/
theorem status_roundtrip_amended (db : List (String × String)) (k T : String)
    (hk0 : k ≠ "") (hknorm : pyLower (pyStrip k) = k)
    (hdb : ∀ p ∈ db, p.1 ≠ k ∧ pyLower (pyStrip p.1) ≠ k) :
    get_status (set_status db k (some T)) k = some T ∧
    set_status (set_status db k (some T)) k none = db ∧
    get_status (set_status (set_status db k (some T)) k none) k = none := by
  have hany : db.any (fun p => p.1 = k) = false := by
    rw [List.any_eq_false]
    intro p hp
    simpa using (hdb p hp).1
  have hdb1 : set_status db k (some T) = db ++ [(k, T)] := by
    simp only [set_status, hknorm, if_neg hk0, hany]
    simp
  have hdb2 : set_status (db ++ [(k, T)]) k none = db := by
    simp only [set_status, hknorm, if_neg hk0]
    rw [List.filter_append]
    have h1 : db.filter (fun p => p.1 ≠ k) = db := by
      rw [List.filter_eq_self]
      intro p hp
      simpa using (hdb p hp).1
    have h2 : List.filter (fun p => p.1 ≠ k) [(k, T)] = [] := by
      simp [List.filter]
    rw [h1, h2, List.append_nil]
  have hget1 : get_status (db ++ [(k, T)]) k = some T := by
    unfold get_status get_all_statuses
    rw [List.foldl_append]
    simp only [List.foldl_cons, List.foldl_nil, if_pos hk0, hknorm]
    exact pyDictGet_insert_self _ _ _
  refine ⟨by rw [hdb1]; exact hget1, by rw [hdb1]; exact hdb2, ?_⟩
  rw [hdb1, hdb2]
  exact get_all_statuses_not_mem db k (fun p hp => (hdb p hp).2)

/-- Witness for C2's amended theorem at concrete inputs: the favorite
round-trip scenario with key "rom:pacman" on a store holding one other
row. -/
theorem status_roundtrip_amended_witness :
    get_status (set_status [("digdug", "played")] "rom:pacman" (some "want_to_play"))
        "rom:pacman" = some "want_to_play" ∧
    set_status (set_status [("digdug", "played")] "rom:pacman" (some "want_to_play"))
        "rom:pacman" none = [("digdug", "played")] ∧
    get_status
        (set_status
          (set_status [("digdug", "played")] "rom:pacman" (some "want_to_play"))
          "rom:pacman" none) "rom:pacman" = none :=
  status_roundtrip_amended [("digdug", "played")] "rom:pacman" "want_to_play"
    (by decide) (by decide)
    (by intro p hp; simp at hp; rw [hp]; exact ⟨by decide, by decide⟩)

/-- C10: calling `set_status` (and the session-level `update_status`) with
a key that is empty or whitespace-only leaves the durable store and the
session status cache completely unchanged — a silent no-op, and no row is
created under an empty key. -/
theorem set_status_blank_noop (db cache : List (String × String)) (rom : String)
    (status : Option String) (hblank : pyStrip rom = "") :
    set_status db rom status = db ∧
    update_status db cache rom status = (db, cache) := by
  have hlow : pyLower (pyStrip rom) = "" := by
    rw [hblank]
    rfl
  constructor
  · simp [set_status, hlow]
  · simp [update_status, hlow]

/-- Witness for C10 at the concrete whitespace-only key `"  "` against a
non-empty store and cache. -/
theorem set_status_blank_noop_witness :
    set_status [("pacman", "played")] "  " (some "want_to_play")
        = [("pacman", "played")] ∧
    update_status [("pacman", "played")] [("pacman", "played")] "  "
        (some "want_to_play")
        = ([("pacman", "played")], [("pacman", "played")]) :=
  set_status_blank_noop [("pacman", "played")] [("pacman", "played")] "  "
    (some "want_to_play") (by decide)

/-! ## JSON trees

The ADB scraper returns an arbitrarily-shaped JSON value; dict iteration
order is insertion order, so objects are ordered field lists. -/

inductive Json where
  | null : Json
  | str : String → Json
  | num : Int → Json
  | jbool : Bool → Json
  | arr : List Json → Json
  | obj : List (String × Json) → Json
deriving Repr

/-! ## Image-URL harvesting (`src/app.py` lines 291-317)

```python
def extract_image_urls(obj):
    urls = []
    def walk(x):
        if isinstance(x, dict):   for v in x.values(): walk(v)
        elif isinstance(x, list): for v in x: walk(v)
        elif isinstance(x, str):
            s = x.strip()
            if s.startswith("http://") or s.startswith("https://"):
                if s.startswith("https://adb.arcadeitalia.net/"):
                    s = "http://adb.arcadeitalia.net/" + s.split("https://adb.arcadeitalia.net/", 1)[1]
                if re.search(r"\.(png|jpg|jpeg|webp)(\?.*)?\x24", s, re.IGNORECASE):
                    urls.append(s)
    walk(obj)
    # then de-dupe preserving first-appearance order
```
-/

def strStarts (p s : String) : Bool := p.data.isPrefixOf s.data

def ADB_HTTPS : String := "https://adb.arcadeitalia.net/"

def ADB_HTTP : String := "http://adb.arcadeitalia.net/"

/-- The `s.split("https://adb.arcadeitalia.net/", 1)[1]` rewrite applied
when `s` starts with the https ADB base: replace that base by the http
one. -/
def rewriteAdb (s : String) : String :=
  if strStarts ADB_HTTPS s then ADB_HTTP ++ ⟨s.data.drop ADB_HTTPS.data.length⟩
  else s

/-- Does the remainder after a matched extension complete the regex match?
`(\?.*)?` followed by end of input: either nothing, or `?` then characters
among which `.*` matches (no newline).  The regex anchor also matches just
before a trailing newline, but the scanned string was produced by
`str.strip()` (plus a prefix rewrite), so it never ends in a newline. -/
def extTail : List Char → Bool
  | [] => true
  | '?' :: rest => rest.all (fun c => c ≠ '\n')
  | _ => false

/-- Try one alternative of `(png|jpg|jpeg|webp)` case-insensitively at the
current position, then the tail of the pattern. -/
def tryExt (ext : String) (cs : List Char) : Bool :=
  ((cs.take ext.length).map Char.toLower = ext.data) && extTail (cs.drop ext.length)

def extAfterDot (cs : List Char) : Bool :=
  tryExt "png" cs || tryExt "jpg" cs || tryExt "jpeg" cs || tryExt "webp" cs

/-- Model of `re.search` of `\.(png|jpg|jpeg|webp)(\?.*)?` anchored at the end:
some position starts a `.`-extension match that reaches the end. -/
def hasImageExtAux : List Char → Bool
  | [] => false
  | c :: rest => ((c = '.') && extAfterDot rest) || hasImageExtAux rest

def hasImageExt (s : String) : Bool := hasImageExtAux s.data

/-- The per-string-value processing pipeline of the walker: strip, check
the scheme, rewrite the ADB https base to http, then the extension test. -/
def processUrl (x : String) : Option String :=
  let s := pyStrip x
  if strStarts "http://" s || strStarts "https://" s then
    let s2 := rewriteAdb s
    if hasImageExt s2 then some s2 else none
  else none

mutual

/-- The `walk` closure: the flat list of accepted URLs in traversal
order (dict values in insertion order, list items in order). -/
def euWalk : Json → List String
  | .null => []
  | .num _ => []
  | .jbool _ => []
  | .str x =>
    let s := pyStrip x
    if strStarts "http://" s || strStarts "https://" s then
      let s2 := rewriteAdb s
      if hasImageExt s2 then [s2] else []
    else []
  | .arr xs => euWalkList xs
  | .obj fs => euWalkObj fs

def euWalkList : List Json → List String
  | [] => []
  | x :: xs => euWalk x ++ euWalkList xs

def euWalkObj : List (String × Json) → List String
  | [] => []
  | f :: fs => euWalk f.2 ++ euWalkObj fs

end

/-- The final de-duplication loop (`seen` set + `out` list): keep the
first occurrence of each URL, preserving order. -/
def dedupFirst (xs : List String) : List String :=
  xs.foldl (fun out u => if out.contains u then out else out ++ [u]) []

def extract_image_urls (j : Json) : List String := dedupFirst (euWalk j)

mutual

/-- Specification-side collector: all string values of a JSON tree in
traversal order. -/
def jsonStrings : Json → List String
  | .null => []
  | .num _ => []
  | .jbool _ => []
  | .str x => [x]
  | .arr xs => jsonStringsList xs
  | .obj fs => jsonStringsObj fs

def jsonStringsList : List Json → List String
  | [] => []
  | x :: xs => jsonStrings x ++ jsonStringsList xs

def jsonStringsObj : List (String × Json) → List String
  | [] => []
  | f :: fs => jsonStrings f.2 ++ jsonStringsObj fs

end

mutual

theorem euWalk_eq_filterMap :
    (j : Json) → euWalk j = (jsonStrings j).filterMap processUrl
  | .null => rfl
  | .num _ => rfl
  | .jbool _ => rfl
  | .str x => by
    simp only [euWalk, jsonStrings, List.filterMap_cons, List.filterMap_nil, processUrl]
    by_cases h1 : (strStarts "http://" (pyStrip x) || strStarts "https://" (pyStrip x))
    · simp only [if_pos h1]
      by_cases h2 : hasImageExt (rewriteAdb (pyStrip x))
      · simp [if_pos h2]
      · simp [if_neg h2]
    · have h1' : ¬ (strStarts "http://" (pyStrip x) = true ∨
          strStarts "https://" (pyStrip x) = true) := by simpa using h1
      simp [if_neg h1']
  | .arr xs => by
    simp only [euWalk, jsonStrings]
    exact euWalkList_eq_filterMap xs
  | .obj fs => by
    simp only [euWalk, jsonStrings]
    exact euWalkObj_eq_filterMap fs

theorem euWalkList_eq_filterMap :
    (xs : List Json) → euWalkList xs = (jsonStringsList xs).filterMap processUrl
  | [] => rfl
  | x :: xs => by
    simp only [euWalkList, jsonStringsList, List.filterMap_append]
    rw [euWalk_eq_filterMap x, euWalkList_eq_filterMap xs]

theorem euWalkObj_eq_filterMap :
    (fs : List (String × Json)) →
      euWalkObj fs = (jsonStringsObj fs).filterMap processUrl
  | [] => rfl
  | f :: fs => by
    simp only [euWalkObj, jsonStringsObj, List.filterMap_append]
    rw [euWalk_eq_filterMap f.2, euWalkObj_eq_filterMap fs]

end

theorem contains_iff_mem (out : List String) (u : String) :
    out.contains u = true ↔ u ∈ out := by
  simp [List.contains, List.elem_iff]

theorem dedupFirst_go_mem (xs : List String) :
    ∀ (acc : List String) (u : String),
      u ∈ xs.foldl (fun out v => if out.contains v then out else out ++ [v]) acc ↔
        u ∈ acc ∨ u ∈ xs := by
  induction xs with
  | nil => simp
  | cons x xs ih =>
    intro acc u
    simp only [List.foldl_cons]
    by_cases h : acc.contains x
    · rw [if_pos h, ih]
      have hx : x ∈ acc := (contains_iff_mem acc x).mp h
      constructor
      · rintro (hu | hu)
        · exact Or.inl hu
        · exact Or.inr (List.mem_cons_of_mem _ hu)
      · rintro (hu | hu)
        · exact Or.inl hu
        · rcases List.mem_cons.mp hu with hu | hu
          · exact Or.inl (hu ▸ hx)
          · exact Or.inr hu
    · rw [if_neg h, ih]
      simp only [List.mem_append, List.mem_singleton, List.mem_cons]
      tauto

theorem dedupFirst_go_nodup (xs : List String) :
    ∀ acc : List String, acc.Nodup →
      (xs.foldl (fun out v => if out.contains v then out else out ++ [v]) acc).Nodup := by
  induction xs with
  | nil => intro acc h; simpa using h
  | cons x xs ih =>
    intro acc hacc
    simp only [List.foldl_cons]
    by_cases h : acc.contains x
    · rw [if_pos h]; exact ih acc hacc
    · rw [if_neg h]
      refine ih _ ?_
      have hx : x ∉ acc := fun hm => h ((contains_iff_mem acc x).mpr hm)
      simpa [List.nodup_append] using ⟨hacc, hx⟩

/-- C7 amended: the harvester returns, in order of first appearance and
with duplicates removed, the *processed* forms of the qualifying string
values of the tree — stripped and, for `https://adb.arcadeitalia.net/`
URLs, rewritten to `http://` (so a returned URL need not occur verbatim in
the tree); the output has no duplicates, and membership is exactly
membership in the processed qualifying strings. -/
theorem extract_image_urls_spec (j : Json) :
    extract_image_urls j = dedupFirst ((jsonStrings j).filterMap processUrl) ∧
    (extract_image_urls j).Nodup ∧
    (∀ u, u ∈ extract_image_urls j ↔ u ∈ (jsonStrings j).filterMap processUrl) := by
  refine ⟨by rw [extract_image_urls, euWalk_eq_filterMap], ?_, ?_⟩
  · exact dedupFirst_go_nodup _ _ List.nodup_nil
  · intro u
    rw [extract_image_urls, euWalk_eq_filterMap]
    rw [dedupFirst, dedupFirst_go_mem]
    simp

/-- C7 counterexample input: a response whose only string value is an
https ADB image URL. -/
def jC7 : Json := .obj [("img", .str "https://adb.arcadeitalia.net/img.png")]

/-- C7 counterexample: the harvester rewrites the ADB https URL to http,
so the returned URL does not occur as a string value anywhere in the input
tree, contradicting the claim. -/
theorem extract_image_urls_rewrite_cex :
    extract_image_urls jC7 = ["http://adb.arcadeitalia.net/img.png"] ∧
    jsonStrings jC7 = ["https://adb.arcadeitalia.net/img.png"] ∧
    "http://adb.arcadeitalia.net/img.png" ∉ jsonStrings jC7 :=
  ⟨rfl, rfl, by decide⟩

/-! ## ADB metadata fetch (`src/app.py` lines 239-288, 404-450)

`adb_urls` builds the two HTTP-only URLs (the human-browsable page and the
scraper endpoint; `urlencode` is the identity on the fixed parameters and
the lowercase ROM short names the app passes).  `fetch_adb_details` checks
the session cache, then issues exactly one request to the scraper URL; on
any exception it caches and returns an error descriptor carrying the
exception text and the fallback page URL.  The network is an oracle
`net : String → Except String Json`; the third component of the result
counts the network calls the invocation made. -/

def page_http (rom : String) : String := "http://adb.arcadeitalia.net/?mame=" ++ rom

def scraper_http (rom : String) : String :=
  "http://adb.arcadeitalia.net/service_scraper.php?ajax=query_mame&lang=en&game_name="
    ++ rom

/-- The body handling of `fetch_json_url`: wraps a non-dict JSON body as `{"_data": data}`. -/
def toDict : Json → Json
  | .obj fs => .obj fs
  | j => .obj [("_data", j)]

/-- The error descriptor built when the scraper request raises
(`last_err or "Unknown error"` — `str(e)` is falsy only when empty). -/
def errorPayload (e rom : String) : Json :=
  .obj [("_error", .str "Could not retrieve data from ADB right now."),
        ("_detail", .str (if e = "" then "Unknown error" else e)),
        ("_rom", .str rom),
        ("_fallback_page", .str (page_http rom))]

def fetch_adb_details (net : String → Except String Json)
    (cache : List (String × Json)) (rom0 : String) :
    Json × List (String × Json) × Nat :=
  let rom := pyLower (pyStrip rom0)
  if rom = "" then
    (.obj [("_error", .str "No ROM short name available for this game.")], cache, 0)
  else
    match pyDictGet cache rom with
    | some d => (d, cache, 0)
    | none =>
      match net (scraper_http rom) with
      | .ok data => (toDict data, pyDictInsert cache rom (toDict data), 1)
      | .error e => (errorPayload e rom, pyDictInsert cache rom (errorPayload e rom), 1)

/-- The forced-refresh path of `show_adb_block`: delete the cache entry
for the (normalized) rom if present, then fetch. -/
def refresh_fetch (net : String → Except String Json)
    (cache : List (String × Json)) (rom0 : String) :
    Json × List (String × Json) × Nat :=
  let rom := pyLower (pyStrip rom0)
  fetch_adb_details net (cache.filter (fun p => p.1 ≠ rom)) rom

/-- Python truthiness of a JSON value (`data.get("_error")` test). -/
def jsonTruthy : Json → Bool
  | .null => false
  | .str s => s ≠ ""
  | .num n => n ≠ 0
  | .jbool b => b
  | .arr xs => ¬ xs.isEmpty
  | .obj fs => ¬ fs.isEmpty

/-- The `bool(data.get("_error"))` test: is the payload an error descriptor? -/
def isErrorResult (j : Json) : Bool :=
  match j with
  | .obj fs =>
    match pyDictGet fs "_error" with
    | some v => jsonTruthy v
    | none => false
  | _ => false

theorem pyDictGet_filter_out {α : Type} (cache : List (String × α)) (k : String) :
    pyDictGet (cache.filter (fun p => p.1 ≠ k)) k = none := by
  induction cache with
  | nil => rfl
  | cons p rest ih =>
    by_cases hp : p.1 = k
    · simp only [List.filter_cons]
      rw [if_neg (by simp [hp])]
      exact ih
    · simp only [List.filter_cons]
      rw [if_pos (by simpa using hp)]
      rw [← ih]
      simp [pyDictGet, List.find?, hp]

/-- C3: for a normalized, non-empty identity hint with a cache entry, a
non-forced fetch returns the cached value with no network call when the
entry is a non-error payload; a forced refresh evicts the entry first and
therefore always issues exactly one network call, even when a cache entry
exists. -/
theorem fetch_adb_cache_and_refresh (net : String → Except String Json)
    (cache : List (String × Json)) (rom : String) (d : Json)
    (hnorm : pyLower (pyStrip rom) = rom) (hne : rom ≠ "") :
    (pyDictGet cache rom = some d → isErrorResult d = false →
      fetch_adb_details net cache rom = (d, cache, 0)) ∧
    (refresh_fetch net cache rom).2.2 = 1 := by
  constructor
  · intro hcache _
    simp only [fetch_adb_details, hnorm, if_neg hne, hcache]
  · simp only [refresh_fetch, fetch_adb_details, hnorm, if_neg hne,
      pyDictGet_filter_out]
    cases net (scraper_http rom) <;> rfl

/-- Witness for C3 at a concrete cached, non-error payload. -/
theorem fetch_adb_cache_and_refresh_witness :
    (fetch_adb_details (fun _ => .error "timeout")
        [("pacman", Json.obj [("title", Json.str "Pac-Man")])] "pacman"
      = (Json.obj [("title", Json.str "Pac-Man")],
         [("pacman", Json.obj [("title", Json.str "Pac-Man")])], 0)) ∧
    (refresh_fetch (fun _ => .error "timeout")
        [("pacman", Json.obj [("title", Json.str "Pac-Man")])] "pacman").2.2 = 1 := by
  have h := fetch_adb_cache_and_refresh (fun _ => .error "timeout")
    [("pacman", Json.obj [("title", Json.str "Pac-Man")])] "pacman"
    (Json.obj [("title", Json.str "Pac-Man")]) (by decide) (by decide)
  exact ⟨h.1 rfl rfl, h.2⟩

/-- C9: when the scraper request fails for a normalized, non-empty,
uncached hint, the error descriptor (carrying the failure detail and the
fallback page URL) is stored in the session cache under that hint, and a
subsequent non-forced fetch returns the cached error descriptor with no
network call. -/
theorem fetch_adb_error_cached (net : String → Except String Json)
    (cache : List (String × Json)) (rom e : String)
    (hnorm : pyLower (pyStrip rom) = rom) (hne : rom ≠ "")
    (hmiss : pyDictGet cache rom = none)
    (hfail : net (scraper_http rom) = .error e) :
    fetch_adb_details net cache rom
      = (errorPayload e rom, pyDictInsert cache rom (errorPayload e rom), 1) ∧
    fetch_adb_details net (pyDictInsert cache rom (errorPayload e rom)) rom
      = (errorPayload e rom, pyDictInsert cache rom (errorPayload e rom), 0) := by
  constructor
  · simp only [fetch_adb_details, hnorm, if_neg hne, hmiss, hfail]
  · simp only [fetch_adb_details, hnorm, if_neg hne, pyDictGet_insert_self]

/-- Witness for C9 at a concrete failing network oracle. -/
theorem fetch_adb_error_cached_witness :
    fetch_adb_details (fun _ => .error "timed out") [] "pacman"
      = (errorPayload "timed out" "pacman",
         pyDictInsert [] "pacman" (errorPayload "timed out" "pacman"), 1) ∧
    fetch_adb_details (fun _ => .error "timed out")
        (pyDictInsert [] "pacman" (errorPayload "timed out" "pacman")) "pacman"
      = (errorPayload "timed out" "pacman",
         pyDictInsert [] "pacman" (errorPayload "timed out" "pacman"), 0) :=
  fetch_adb_error_cached (fun _ => .error "timed out") [] "pacman" "timed out"
    (by decide) (by decide) rfl rfl

/-- C4 counterexample oracle: the scraper endpoint fails, every other URL
(in particular the browsable page URL, the only other transport the code
knows) would return a syntactically valid body. -/
def netC4 : String → Except String Json :=
  fun u =>
    if u = scraper_http "pacman" then .error "timed out"
    else .ok (Json.obj [("title", Json.str "Pac-Man")])

/-- C4 counterexample: with `netC4`, any second transport variant would
have returned a valid body, yet `fetch_adb_details` returns an error
descriptor — the code consults exactly one transport variant, so the
claimed secondary-variant fallback does not happen. -/
theorem fetch_adb_single_variant_cex :
    isErrorResult (fetch_adb_details netC4 [] "pacman").1 = true ∧
    netC4 (page_http "pacman") = .ok (Json.obj [("title", Json.str "Pac-Man")]) :=
  ⟨rfl, rfl⟩

/-- C4 amended: for a normalized, non-empty, uncached hint the fetch
issues exactly one network request, to the scraper URL; if that request
returns a syntactically valid structured body the parsed payload is
returned (and cached), and if it fails the result is an error descriptor
carrying the underlying failure reason and the human-followable fallback
page URL. -/
theorem fetch_adb_transport_amended (net : String → Except String Json)
    (cache : List (String × Json)) (rom : String)
    (hnorm : pyLower (pyStrip rom) = rom) (hne : rom ≠ "")
    (hmiss : pyDictGet cache rom = none) :
    (fetch_adb_details net cache rom).2.2 = 1 ∧
    (∀ data, net (scraper_http rom) = .ok data →
      fetch_adb_details net cache rom
        = (toDict data, pyDictInsert cache rom (toDict data), 1)) ∧
    (∀ e, net (scraper_http rom) = .error e →
      fetch_adb_details net cache rom
        = (errorPayload e rom, pyDictInsert cache rom (errorPayload e rom), 1)) := by
  refine ⟨?_, ?_, ?_⟩
  · simp only [fetch_adb_details, hnorm, if_neg hne, hmiss]
    cases net (scraper_http rom) <;> rfl
  · intro data hok
    simp only [fetch_adb_details, hnorm, if_neg hne, hmiss, hok]
  · intro e hfail
    simp only [fetch_adb_details, hnorm, if_neg hne, hmiss, hfail]

/-- Witness for C4's amended theorem at a concrete succeeding oracle. -/
theorem fetch_adb_transport_amended_witness :
    (fetch_adb_details (fun _ => .ok (Json.str "ok")) [] "pacman").2.2 = 1 ∧
    fetch_adb_details (fun _ => .ok (Json.str "ok")) [] "pacman"
      = (toDict (Json.str "ok"), pyDictInsert [] "pacman" (toDict (Json.str "ok")), 1) := by
  have h := fetch_adb_transport_amended (fun _ => .ok (Json.str "ok")) [] "pacman"
    (by decide) (by decide) rfl
  exact ⟨h.1, h.2.1 (Json.str "ok") rfl⟩

/-! ## Artwork resolver (`src/appv1_4.py` lines 119-131, 174-193)

`artwork_candidates_for_rom` builds one rom-keyed URL per asset category
in the fixed order marquee, flyer, title, snap; `show_game_details` tries
each candidate in order and keeps the first that renders, showing a
"no artwork" caption when none does.  The existence probe is the oracle
`probe : String → Bool`. -/

def ART_BASE_URL : String :=
  "https://raw.githubusercontent.com/libretro-thumbnails/MAME/master"

def ART_PATHS : List String :=
  ["Named_Marquees", "Named_Flyers", "Named_Titles", "Named_Snaps"]

/-- Python `s.rstrip("/")`. -/
def rstripSlash (s : String) : String :=
  ⟨(s.data.reverse.dropWhile (fun c => c = '/')).reverse⟩

def artwork_candidates_for_rom (rom : String) : List String :=
  if rom = "" then []
  else
    ART_PATHS.map (fun folder =>
      rstripSlash ART_BASE_URL ++ "/" ++ folder ++ "/"
        ++ pyLower (pyStrip rom) ++ ".png")

/-- One candidate URL for a given category folder. -/
def artUrl (folder rom : String) : String :=
  rstripSlash ART_BASE_URL ++ "/" ++ folder ++ "/" ++ pyLower (pyStrip rom) ++ ".png"

/-- The first-confirmed-candidate loop of `show_game_details`. -/
def resolve_artwork (probe : String → Bool) (rom : String) : Option String :=
  (artwork_candidates_for_rom rom).find? probe

/-- C8 counterexample probe: only the *title-keyed* marquee asset
exists. -/
def probeTitleMarquee : String → Bool :=
  fun u =>
    u = "https://raw.githubusercontent.com/libretro-thumbnails/MAME/master/Named_Marquees/Pac-Man.png"

/-- C8 counterexample: for rom "pacman" the resolver probes exactly four
candidates, one rom-keyed path per category and no title-keyed path, so a
marquee asset stored under the normalized title "Pac-Man" is never found
even though it exists. -/
theorem artwork_no_title_path_cex :
    artwork_candidates_for_rom "pacman" =
      ["https://raw.githubusercontent.com/libretro-thumbnails/MAME/master/Named_Marquees/pacman.png",
       "https://raw.githubusercontent.com/libretro-thumbnails/MAME/master/Named_Flyers/pacman.png",
       "https://raw.githubusercontent.com/libretro-thumbnails/MAME/master/Named_Titles/pacman.png",
       "https://raw.githubusercontent.com/libretro-thumbnails/MAME/master/Named_Snaps/pacman.png"] ∧
    resolve_artwork probeTitleMarquee "pacman" = none ∧
    probeTitleMarquee
      "https://raw.githubusercontent.com/libretro-thumbnails/MAME/master/Named_Marquees/Pac-Man.png"
      = true :=
  ⟨rfl, rfl, rfl⟩

/-- C8 amended: the resolver tries asset categories in the fixed priority
order marquee, flyer, title-screen, snapshot, with a single
identity-hint-keyed candidate per category; it accepts the first confirmed
candidate (so when the marquee exists it is returned, never the flyer,
whatever the probe says about later candidates), returns `none` when no
candidate's existence is confirmed, and returns `none` for a record with
no rom. -/
theorem resolve_artwork_amended (probe : String → Bool) (rom : String) (hne : rom ≠ "") :
    artwork_candidates_for_rom rom =
      [artUrl "Named_Marquees" rom, artUrl "Named_Flyers" rom,
       artUrl "Named_Titles" rom, artUrl "Named_Snaps" rom] ∧
    (probe (artUrl "Named_Marquees" rom) = true →
      resolve_artwork probe rom = some (artUrl "Named_Marquees" rom)) ∧
    ((∀ u ∈ artwork_candidates_for_rom rom, probe u = false) →
      resolve_artwork probe rom = none) ∧
    resolve_artwork probe "" = none := by
  have hcands : artwork_candidates_for_rom rom =
      [artUrl "Named_Marquees" rom, artUrl "Named_Flyers" rom,
       artUrl "Named_Titles" rom, artUrl "Named_Snaps" rom] := by
    simp only [artwork_candidates_for_rom, if_neg hne, ART_PATHS, List.map_cons,
      List.map_nil]
    rfl
  refine ⟨hcands, ?_, ?_, rfl⟩
  · intro hm
    rw [resolve_artwork, hcands]
    exact List.find?_cons_of_pos _ hm
  · intro hall
    rw [resolve_artwork, List.find?_eq_none]
    intro u hu
    rw [hall u hu]
    exact Bool.false_ne_true

/-- Witness for C8's amended theorem: both the marquee and the flyer
exist; the marquee is returned. -/
theorem resolve_artwork_amended_witness :
    resolve_artwork
      (fun u => u = artUrl "Named_Marquees" "pacman" || u = artUrl "Named_Flyers" "pacman")
      "pacman" = some (artUrl "Named_Marquees" "pacman") :=
  ((resolve_artwork_amended
      (fun u => u = artUrl "Named_Marquees" "pacman" || u = artUrl "Named_Flyers" "pacman")
      "pacman" (by decide)).2.1) (by simp)

/-! ## Ingestion / normalization (`src/app.py` lines 102-128,
`src/appv1_4.py` lines 36-65)

A raw CSV cell is `Option String` (`none` = missing / NaN).
`normalize_str` maps NaN to `""` and strips strings; `ensure_columns`
normalizes the string columns, coerces `year` with
`pd.to_numeric(..., errors="coerce")` and then drops rows whose `game` or
`year` is NaN.  Crucially the `game` column was already mapped through
`normalize_str`, which turned NaN into the (non-NaN) empty string, so the
`dropna` on `game` never drops anything: only an unparseable year drops a
row.  The year parser models the integer fragment of `to_numeric`
(optional sign, decimal digits), which is all the claims exercise. -/

structure RawRow where
  rom : Option String
  game : Option String
  year : Option String
  company : Option String
  genre : Option String
  platform : Option String
deriving Repr, DecidableEq

def normalize_str : Option String → String
  | none => ""
  | some s => pyStrip s

def digitsToNat (cs : List Char) : Nat :=
  cs.foldl (fun a c => a * 10 + (c.toNat - '0'.toNat)) 0

/-- Model of `pd.to_numeric(cell, errors="coerce")` restricted to integer
literals: `none` (NaN) and unparseable strings coerce to NaN (`none`). -/
def parseYear : Option String → Option Int
  | none => none
  | some s =>
    match stripChars s.data with
    | [] => none
    | '-' :: rest =>
      if rest ≠ [] && rest.all Char.isDigit then some (-(digitsToNat rest : Int))
      else none
    | '+' :: rest =>
      if rest ≠ [] && rest.all Char.isDigit then some (digitsToNat rest : Int)
      else none
    | cs =>
      if cs.all Char.isDigit then some (digitsToNat cs : Int) else none

def ensure_columns (rows : List RawRow) : List GameRecord :=
  rows.filterMap (fun r =>
    match parseYear r.year with
    | none => none
    | some y =>
      some { rom := pyLower (normalize_str r.rom)
             game := normalize_str r.game
             year := y
             company := normalize_str r.company
             genre := normalize_str r.genre
             platform := normalize_str r.platform })

/-- C6 failing input: a raw row with a missing title and a parseable
year is *retained* by `ensure_columns`, with an empty title — the
`dropna(subset=["game", ...])` is defeated by the earlier
`normalize_str` mapping that replaced NaN with `""`, so the claimed
invariant "title non-empty after normalization" does not hold; only the
year half (rows without a parseable year are dropped) survives. -/
theorem ensure_columns_keeps_empty_title :
    ensure_columns [{ rom := some "pacman", game := none, year := some "1980",
                      company := none, genre := none, platform := none }]
      = [{ rom := "pacman", game := "", year := 1980,
           company := "", genre := "", platform := "" }] ∧
    ensure_columns [{ rom := some "pacman", game := some "Pac-Man", year := none,
                      company := none, genre := none, platform := none }]
      = [] :=
  ⟨rfl, rfl⟩

/-! ## Decimal rendering facts

`game_key` interpolates `int(year)` into the composite key; these lemmas
establish that the decimal rendering of an integer contains only digits
(and a leading `-`), and is injective. -/

theorem digitChar_isDigit (m : Nat) (hm : m < 10) :
    (Nat.digitChar m).isDigit = true := by
  interval_cases m <;> decide

theorem mem_toDigitsCore_isDigit :
    ∀ (f n : Nat) (ds : List Char), (∀ c ∈ ds, c.isDigit = true) →
      ∀ c ∈ Nat.toDigitsCore 10 f n ds, c.isDigit = true := by
  intro f
  induction f with
  | zero => intro n ds hds c hc; exact hds c hc
  | succ f ih =>
    intro n ds hds c hc
    simp only [Nat.toDigitsCore] at hc
    have hdig : ∀ x ∈ Nat.digitChar (n % 10) :: ds, x.isDigit = true := by
      intro x hx
      rcases List.mem_cons.mp hx with hx | hx
      · rw [hx]; exact digitChar_isDigit _ (Nat.mod_lt n (by omega))
      · exact hds x hx
    by_cases h : n / 10 = 0
    · rw [if_pos h] at hc
      exact hdig c hc
    · rw [if_neg h] at hc
      exact ih (n / 10) _ hdig c hc

theorem toDigits_all_digit (n : Nat) :
    ∀ c ∈ Nat.toDigits 10 n, c.isDigit = true := by
  intro c hc
  exact mem_toDigitsCore_isDigit (n + 1) n [] (by intro x hx; simp at hx) c hc

theorem toDigitsCore_append :
    ∀ (f n : Nat) (ds : List Char),
      Nat.toDigitsCore 10 f n ds = Nat.toDigitsCore 10 f n [] ++ ds := by
  intro f
  induction f with
  | zero => intro n ds; rfl
  | succ f ih =>
    intro n ds
    simp only [Nat.toDigitsCore]
    by_cases h : n / 10 = 0
    · simp [h]
    · rw [if_neg h, if_neg h]
      rw [ih (n / 10) (Nat.digitChar (n % 10) :: ds),
          ih (n / 10) [Nat.digitChar (n % 10)]]
      simp

theorem digitsToNat_append_singleton (l : List Char) (c : Char) :
    digitsToNat (l ++ [c]) = digitsToNat l * 10 + (c.toNat - '0'.toNat) := by
  simp [digitsToNat, List.foldl_append]

theorem digitChar_val (m : Nat) (hm : m < 10) :
    (Nat.digitChar m).toNat - '0'.toNat = m := by
  interval_cases m <;> decide

theorem digitsToNat_toDigitsCore :
    ∀ (f n : Nat), n < f → digitsToNat (Nat.toDigitsCore 10 f n []) = n := by
  intro f
  induction f with
  | zero => intro n h; omega
  | succ f ih =>
    intro n hn
    simp only [Nat.toDigitsCore]
    by_cases h : n / 10 = 0
    · rw [if_pos h]
      have hlt : n < 10 := by omega
      have : digitsToNat [Nat.digitChar (n % 10)] = (Nat.digitChar (n % 10)).toNat - '0'.toNat := by
        simp [digitsToNat]
      rw [this, digitChar_val (n % 10) (Nat.mod_lt n (by omega)), Nat.mod_eq_of_lt hlt]
    · rw [if_neg h]
      rw [toDigitsCore_append, digitsToNat_append_singleton]
      have h1 : n / 10 < f := by
        have h2 : n / 10 < n := Nat.div_lt_self (by omega) (by omega)
        omega
      rw [ih (n / 10) h1, digitChar_val (n % 10) (Nat.mod_lt n (by omega))]
      omega

theorem digitsToNat_toDigits (n : Nat) : digitsToNat (Nat.toDigits 10 n) = n := by
  rw [Nat.toDigits]
  exact digitsToNat_toDigitsCore (n + 1) n (by omega)

theorem string_data_append (a b : String) : (a ++ b).data = a.data ++ b.data := rfl

theorem string_data_inj {a b : String} (h : a.data = b.data) : a = b := by
  cases a; cases b; exact congrArg String.mk h

theorem repr_data (n : Nat) : (Nat.repr n).data = Nat.toDigits 10 n := rfl

theorem nat_repr_inj (m k : Nat) (h : Nat.repr m = Nat.repr k) : m = k := by
  have hd : Nat.toDigits 10 m = Nat.toDigits 10 k := by
    have := congrArg String.data h
    rwa [repr_data, repr_data] at this
  have := congrArg digitsToNat hd
  rwa [digitsToNat_toDigits, digitsToNat_toDigits] at this

theorem int_toString_no_pipe (y : Int) : '|' ∉ (toString y).data := by
  cases y with
  | ofNat m =>
    have h : (toString (Int.ofNat m)).data = Nat.toDigits 10 m := rfl
    rw [h]
    intro hmem
    have := toDigits_all_digit m '|' hmem
    exact absurd this (by decide)
  | negSucc m =>
    have h : (toString (Int.negSucc m)).data = '-' :: Nat.toDigits 10 (m + 1) := rfl
    rw [h]
    intro hmem
    rcases List.mem_cons.mp hmem with hc | hc
    · exact absurd hc (by decide)
    · have := toDigits_all_digit (m + 1) '|' hc
      exact absurd this (by decide)

theorem int_toString_inj (a b : Int) (h : toString a = toString b) : a = b := by
  cases a with
  | ofNat m =>
    cases b with
    | ofNat k =>
      have h' : Nat.repr m = Nat.repr k := h
      exact congrArg Int.ofNat (nat_repr_inj m k h')
    | negSucc k =>
      exfalso
      have hd : Nat.toDigits 10 m = '-' :: Nat.toDigits 10 (k + 1) :=
        congrArg String.data h
      have hmem : '-' ∈ Nat.toDigits 10 m := by
        rw [hd]; exact List.mem_cons_self _ _
      exact absurd (toDigits_all_digit m '-' hmem) (by decide)
  | negSucc m =>
    cases b with
    | ofNat k =>
      exfalso
      have hd : ('-' :: Nat.toDigits 10 (m + 1) : List Char) = Nat.toDigits 10 k :=
        congrArg String.data h
      have hmem : '-' ∈ Nat.toDigits 10 k := by
        rw [← hd]; exact List.mem_cons_self _ _
      exact absurd (toDigits_all_digit k '-' hmem) (by decide)
    | negSucc k =>
      have hd : ('-' :: Nat.toDigits 10 (m + 1) : List Char)
          = '-' :: Nat.toDigits 10 (k + 1) := congrArg String.data h
      have htail : Nat.toDigits 10 (m + 1) = Nat.toDigits 10 (k + 1) := by
        injection hd
      have := congrArg digitsToNat htail
      rw [digitsToNat_toDigits, digitsToNat_toDigits] at this
      have hmk : m = k := by omega
      rw [hmk]

/-! ## Identity key resolver (`src/app.py` lines 147-151,
`src/appv1_4.py` lines 100-105)

```python
def game_key(row):
    rom = normalize_str(row.get("rom", "")).lower()
    if rom:
        return f"rom:{rom}"
    return f"meta:{normalize_str(row.get('game',''))}|{int(row.get('year',0))}|{normalize_str(row.get('company',''))}"
```
-/

def game_key (r : GameRecord) : String :=
  if pyLower (pyStrip r.rom) ≠ "" then "rom:" ++ pyLower (pyStrip r.rom)
  else
    "meta:" ++ pyStrip r.game ++ "|" ++ toString r.year ++ "|" ++ pyStrip r.company

/-- C5 counterexample records: both lack an identity hint, all three of
title, year and company differ, yet the composite keys coincide because
the `|` delimiter also occurs inside the field values. -/
def cexR1 : GameRecord :=
  { rom := "", game := "a|1", year := 980, company := "c", genre := "", platform := "" }

def cexR2 : GameRecord :=
  { rom := "", game := "a", year := 1, company := "980|c", genre := "", platform := "" }

/-- C5 counterexample: both keys are `"meta:a|1|980|c"`, so the composite
key is not injective on the (title, year, company) tuple. -/
theorem game_key_meta_collision_cex :
    game_key cexR1 = game_key cexR2 ∧
    cexR1.game ≠ cexR2.game ∧ cexR1.year ≠ cexR2.year ∧
    cexR1.company ≠ cexR2.company :=
  ⟨rfl, by decide, by decide, by decide⟩

/-- Splitting a character list at a delimiter that occurs in neither left
part is unambiguous. -/
theorem split_pipe :
    ∀ (a1 : List Char) (a2 r1 r2 : List Char), '|' ∉ a1 → '|' ∉ a2 →
      a1 ++ '|' :: r1 = a2 ++ '|' :: r2 → a1 = a2 ∧ r1 = r2 := by
  intro a1
  induction a1 with
  | nil =>
    intro a2 r1 r2 h1 h2 he
    cases a2 with
    | nil => simpa using he
    | cons c t =>
      exfalso
      simp only [List.nil_append, List.cons_append] at he
      injection he with hc _
      exact h2 (hc ▸ List.mem_cons_self c t)
  | cons c t ih =>
    intro a2 r1 r2 h1 h2 he
    cases a2 with
    | nil =>
      exfalso
      simp only [List.cons_append, List.nil_append] at he
      injection he with hc _
      exact h1 (hc ▸ List.mem_cons_self c t)
    | cons c2 t2 =>
      simp only [List.cons_append] at he
      injection he with hc ht
      obtain ⟨ht1, ht2⟩ := ih t2 r1 r2
        (fun hm => h1 (List.mem_cons_of_mem _ hm))
        (fun hm => h2 (List.mem_cons_of_mem _ hm)) ht
      exact ⟨by rw [hc, ht1], ht2⟩

/-- C5 amended: restricted to records without an identity hint whose
*trimmed* titles do not contain the `|` delimiter, equal composite keys
force equal trimmed titles, equal years, and equal trimmed companies (the
resolver trims fields before keying, so only whitespace-trimmed fields
can be distinguished; the year rendering is always delimiter-free and the
company is the unambiguous tail). -/
theorem game_key_meta_inj (r1 r2 : GameRecord)
    (h1 : pyLower (pyStrip r1.rom) = "") (h2 : pyLower (pyStrip r2.rom) = "")
    (hp1 : '|' ∉ (pyStrip r1.game).data) (hp2 : '|' ∉ (pyStrip r2.game).data)
    (hkey : game_key r1 = game_key r2) :
    pyStrip r1.game = pyStrip r2.game ∧ r1.year = r2.year ∧
      pyStrip r1.company = pyStrip r2.company := by
  rw [game_key, game_key, h1, h2] at hkey
  simp only [ne_eq, not_true_eq_false, if_false] at hkey
  have hd := congrArg String.data hkey
  simp only [string_data_append, List.append_assoc] at hd
  have hd2 := List.append_cancel_left hd
  have hd3 : (pyStrip r1.game).data ++ '|' ::
      ((toString r1.year).data ++ '|' :: (pyStrip r1.company).data)
      = (pyStrip r2.game).data ++ '|' ::
        ((toString r2.year).data ++ '|' :: (pyStrip r2.company).data) := by
    simpa using hd2
  obtain ⟨hg, hyc⟩ := split_pipe _ _ _ _ hp1 hp2 hd3
  obtain ⟨hy, hc⟩ := split_pipe _ _ _ _
    (int_toString_no_pipe r1.year) (int_toString_no_pipe r2.year) hyc
  exact ⟨string_data_inj hg,
    int_toString_inj _ _ (string_data_inj hy),
    string_data_inj hc⟩

/-- Witness records for C5's amended theorem: titles that differ only in
trailing whitespace produce the same key, and the amended statement
concludes their *trimmed* fields agree. -/
def wRec1 : GameRecord :=
  { rom := "", game := "Pac-Man ", year := 1980, company := "Namco",
    genre := "", platform := "" }

def wRec2 : GameRecord :=
  { rom := "", game := "Pac-Man", year := 1980, company := "Namco",
    genre := "", platform := "" }

/-- Witness for C5's amended theorem at the concrete records above. -/
theorem game_key_meta_inj_witness :
    pyStrip wRec1.game = pyStrip wRec2.game ∧ wRec1.year = wRec2.year ∧
      pyStrip wRec1.company = pyStrip wRec2.company :=
  game_key_meta_inj wRec1 wRec2 rfl rfl (by decide) (by decide) rfl

end ArcadeGamePicker
